import Mathlib

/-!
Verification of the request-orchestration layer in
`src/microsoft_mcp/graph.py` (module `microsoft_mcp.graph`).

The Python module is shallowly embedded: each network-facing function is
modelled as a pure Lean function over an explicit script of server
responses (the response the k-th outbound HTTP call would receive), and
mutation of caller-supplied dictionaries is modelled by returning the
post-call state of the dictionary.  Dictionaries whose relevant keys are
known are modelled as structures with `Option` fields ("key absent" =
`none`); the generic `params` dictionary is modelled as an association
list.
-/

namespace MsGraph

/-! ## Batch requests (`batch_request`, graph.py lines 86-190)

A batch sub-request dictionary.  The code reads and writes only the
`"id"` and `"dependsOn"` keys; the remaining keys (`method`, `url`,
`body`) are carried through `dict.copy()` unchanged. -/
structure Req where
  id : String
  method : String := ""
  url : String := ""
  body : Option String := none
  dependsOn : Option (List String) := none
  deriving Repr, DecidableEq

/-- Default used for out-of-range list reads (never hit on the paths the
code exercises, where the index is always in range). -/
def dReq : Req := { id := "" }

instance : Inhabited Req := ⟨dReq⟩

/-- Body of the per-item transformation inside the `for i, req in
enumerate(requests)` loop of `batch_request` (graph.py lines 127-146):
`req = req.copy()`; items at `i % 4 != 0` get
`req["dependsOn"] = [requests[i-1]["id"]]`; items starting a non-first
chunk (`i >= 4 and i % 4 == 0`) also get
`req["dependsOn"] = [requests[i-1]["id"]]`. -/
def chunkStep (requests : List Req) (i : Nat) (req : Req) : Req :=
  let req1 :=
    if i % 4 = 0 then req
    else { req with dependsOn := some [(requests.getD (i - 1) dReq).id] }
  if 4 ≤ i ∧ i % 4 = 0 then
    { req1 with dependsOn := some [(requests.getD (i - 1) dReq).id] }
  else req1

/-- The `enumerate` loop of `batch_request`, accumulating
`chunked_requests` (graph.py lines 127-146).  `i` is the enumeration
index of the head of `l` within the original list. -/
def chunkLoop (requests : List Req) : Nat → List Req → List Req
  | _, [] => []
  | i, req :: rest => chunkStep requests i req :: chunkLoop requests (i + 1) rest

/-- `chunked_requests` as submitted in the batch payload
(graph.py lines 120-148): unchanged when `len(requests) <= 4`, else the
result of the enumeration loop. -/
def batchPayload (requests : List Req) : List Req :=
  if requests.length ≤ 4 then requests
  else chunkLoop requests 0 requests

/-- What `batch_request` decides to do before touching the network
(graph.py lines 111-148). -/
inductive BatchPlan where
  | emptyResult
  | validationFailure (msg : String)
  | submit (payload : List Req)
  deriving Repr, DecidableEq

/-- The pre-network phase of `batch_request`: `if not requests: return
{"responses": []}`; `if len(requests) > 20: raise ValueError(...)`;
otherwise build the payload `{"requests": chunked_requests}`. -/
def batchPlan (requests : List Req) : BatchPlan :=
  if requests = [] then .emptyResult
  else if 20 < requests.length then
    .validationFailure "Batch requests cannot exceed 20 items"
  else .submit (batchPayload requests)

/-- One entry of the server's parsed `"responses"` array. -/
structure SubResp where
  id : String
  status : Nat := 200
  deriving Repr, DecidableEq

/-- The parsed JSON body of a batch response (`response.json()`). -/
structure BatchBody where
  responses : List SubResp
  deriving Repr, DecidableEq

/-- One HTTP response to a `POST /$batch` call: status code, optional
parsed `Retry-After` header, parsed body. -/
structure BatchHttpResp where
  status : Nat
  retryAfter : Option Nat := none
  body : BatchBody := ⟨[]⟩
  deriving Repr, DecidableEq

/-- Observable outcome of `batch_request`, with `calls` counting the
outbound `POST` calls actually issued. -/
inductive BatchResult where
  | returned (body : BatchBody) (calls : Nat)
  | validationError (msg : String) (calls : Nat)
  | httpError (status : Nat) (calls : Nat)
  | exhausted (calls : Nat)
  deriving Repr, DecidableEq

/-- The retry loop of `batch_request` (graph.py lines 156-190).
`server k` is the response the k-th POST receives (`retry_count = k` on
the k-th iteration).  429 with retries left: sleep and retry; 5xx with
retries left: sleep and retry; any remaining status ≥ 400 raises through
`raise_for_status` (the `except` clause re-raises, since its retry
condition can only be reached with the budget spent); otherwise the
parsed body is returned.  Falling out of the `while` raises
`ValueError("Batch request failed after all retries")` (line 190),
modelled as `.exhausted`. -/
def batchLoop (server : Nat → BatchHttpResp) (maxRetries rc calls : Nat) :
    BatchResult :=
  if hrc : rc ≤ maxRetries then
    if h429 : (server rc).status = 429 ∧ rc < maxRetries then
      batchLoop server maxRetries (rc + 1) (calls + 1)
    else if h5xx : 500 ≤ (server rc).status ∧ rc < maxRetries then
      batchLoop server maxRetries (rc + 1) (calls + 1)
    else if 400 ≤ (server rc).status then .httpError (server rc).status (calls + 1)
    else .returned (server rc).body (calls + 1)
  else .exhausted calls
  termination_by maxRetries + 1 - rc
  decreasing_by
    all_goals omega

/-- `batch_request(requests, account_id, max_retries)` as a whole:
pre-network validation, then (when a payload is submitted) the retry
loop against the server script. -/
def batch_request (requests : List Req) (server : Nat → BatchHttpResp)
    (maxRetries : Nat) : BatchResult :=
  match batchPlan requests with
  | .emptyResult => .returned ⟨[]⟩ 0
  | .validationFailure msg => .validationError msg 0
  | .submit _payload => batchLoop server maxRetries 0 0

/-! ## Single-request executor (`request`, graph.py lines 13-83) -/

/-- One HTTP response as seen by the retry loop: status code, the parsed
`Retry-After` header if present, and the raw body (`""` models
`response.content` being empty/falsy). -/
structure HttpResp where
  status : Nat
  retryAfter : Option Nat := none
  content : String := ""
  deriving Repr, DecidableEq

/-- Observable outcome of `request`: `success (some b)` is
`return response.json()` on a non-empty body, `success none` is the
explicit `return None` on an empty body (line 73), `error s` is an
`httpx.HTTPStatusError` propagating out, and `fellThrough` is the
`return None` after the `while` loop (line 83). -/
inductive ReqResult where
  | success (body : Option String)
  | error (status : Nat)
  | fellThrough
  deriving Repr, DecidableEq

/-- Sleep before a 429 retry: `min(int(headers.get("Retry-After", "5")), 60)`. -/
def sleep429 (resp : HttpResp) : Nat := min (resp.retryAfter.getD 5) 60

/-- Sleep before a 5xx retry: `(2**retry_count) * 1`. -/
def sleep5xx (rc : Nat) : Nat := 2 ^ rc

/-- The retry loop of `request` (graph.py lines 44-83).  `responses k` is
the response received on the iteration with `retry_count = k` (each
iteration issues exactly one call and `retry_count` grows by one per
retry).  Returns the outcome together with the list of sleeps performed,
in order.  A 429 with budget left sleeps `min(retryAfter, 60)` and
retries; a 5xx with budget left sleeps `2 ** retry_count` and retries;
any remaining status ≥ 400 raises via `raise_for_status` (the `except`
handler re-raises: its retry condition requires budget, which is already
spent on every path that reaches it); a 2xx/3xx returns the parsed body,
or `None` when the body is empty. -/
def requestLoop (responses : Nat → HttpResp) (maxRetries rc : Nat) :
    ReqResult × List Nat :=
  if hrc : rc ≤ maxRetries then
    if h429 : (responses rc).status = 429 ∧ rc < maxRetries then
      ((requestLoop responses maxRetries (rc + 1)).1,
        sleep429 (responses rc) :: (requestLoop responses maxRetries (rc + 1)).2)
    else if h5xx : 500 ≤ (responses rc).status ∧ rc < maxRetries then
      ((requestLoop responses maxRetries (rc + 1)).1,
        sleep5xx rc :: (requestLoop responses maxRetries (rc + 1)).2)
    else if 400 ≤ (responses rc).status then (.error (responses rc).status, [])
    else if (responses rc).content ≠ "" then
      (.success (some (responses rc).content), [])
    else (.success none, [])
  else (.fellThrough, [])
  termination_by maxRetries + 1 - rc
  decreasing_by
    all_goals omega

/-! ## Header policy on `params` (`request`, graph.py lines 36-42)

The caller's `params` dictionary is modelled as an association list with
pairwise-distinct keys (a Python `dict`); its post-call state is the
value returned by `paramsAfterRequest`. -/

/-- Python's `needle in haystack` on strings. -/
def containsStr (hay needle : String) : Bool :=
  hay.toList.tails.any (fun t => needle.toList.isPrefixOf t)

/-- Python's `key in d` on a dict. -/
def hasKey (params : List (String × String)) (k : String) : Bool :=
  params.any (fun p => p.1 = k)

/-- Python's `d.get(key, default)`. -/
def getDefault (params : List (String × String)) (k dflt : String) : String :=
  (params.lookup k).getD dflt

/-- Python's `d.setdefault(key, value)` (its effect on the dict: insert
`key` only if absent). -/
def setdefault (params : List (String × String)) (k v : String) :
    List (String × String) :=
  if hasKey params k then params else params ++ [(k, v)]

/-- The guard of graph.py lines 36-40: `params and ("$search" in params
or "contains(" in params.get("$filter", "") or "/any(" in
params.get("$filter", ""))`. -/
def needsConsistency (params : List (String × String)) : Bool :=
  !params.isEmpty &&
    (hasKey params "$search" ||
     containsStr (getDefault params "$filter" "") "contains(" ||
     containsStr (getDefault params "$filter" "") "/any(")

/-- The caller-visible state of `params` after `request` returns: when
the consistency guard fires, `params.setdefault("$count", "true")` has
been executed in place on the caller's dict (line 42); otherwise the
dict is untouched. -/
def paramsAfterRequest (params : List (String × String)) :
    List (String × String) :=
  if needsConsistency params then setdefault params "$count" "true" else params

/-! ## Cursor pagination (`request_paginated`, graph.py lines 193-221) -/

/-- One parsed page: the `"value"` array if the key is present, and the
`"@odata.nextLink"` cursor if present.  A server with no further
response (the script is exhausted) models `request` returning a falsy
result, which breaks the loop. -/
structure Page (α : Type) where
  value : Option (List α)
  nextLink : Option String
  deriving Repr, DecidableEq

/-- The truthy limit guard `if limit and items_returned >= limit`
(graph.py line 214): `limit` of `None` or `0` is falsy, so the guard is
never taken for those. -/
def limitReached (limit : Option Nat) (ir : Nat) : Bool :=
  match limit with
  | none => false
  | some l => l != 0 && decide (l ≤ ir)

/-- The inner `for item in result["value"]` loop (graph.py lines
213-217): returns the items yielded from this page, the updated
`items_returned`, and whether the generator executed `return`. -/
def yieldPage {α : Type} (limit : Option Nat) (ir : Nat) :
    List α → List α × Nat × Bool
  | [] => ([], ir, false)
  | item :: rest =>
    if limitReached limit ir then ([], ir, true)
    else
      let r := yieldPage limit (ir + 1) rest
      (item :: r.1, r.2.1, r.2.2)

/-- The outer `while True` loop of `request_paginated`: `script` lists
the successive pages the server returns (one per fetch; an exhausted
script means the next fetch yields a falsy result and the loop breaks).
Returns the full yielded sequence and the number of underlying fetches
performed.  Each iteration fetches once; a falsy result breaks; pages
without a `"value"` key yield nothing; the loop continues only while
`"@odata.nextLink"` is present. -/
def paginate {α : Type} (limit : Option Nat) (ir : Nat) :
    List (Page α) → List α × Nat
  | [] => ([], 1)
  | page :: rest =>
    let y := yieldPage limit ir (page.value.getD [])
    if y.2.2 then (y.1, 1)
    else
      match page.nextLink with
      | none => (y.1, 1)
      | some _ =>
        let r := paginate limit y.2.1 rest
        (y.1 ++ r.1, r.2 + 1)

/-! ## Offset search pagination (`search_query`, graph.py lines 384-437) -/

/-- One search hit: the code yields `hit["resource"]`. -/
structure Hit (α : Type) where
  resource : α
  deriving Repr, DecidableEq

/-- One hits container: optional `"hits"` array and the truthiness of
`container.get("moreResultsAvailable")`. -/
structure Container (α : Type) where
  hits : Option (List (Hit α))
  moreResultsAvailable : Bool
  deriving Repr, DecidableEq

/-- One per-entity-type response: optional `"hitsContainers"` array. -/
structure SResp (α : Type) where
  hitsContainers : Option (List (Container α))
  deriving Repr, DecidableEq

/-- One parsed `/search/query` response: optional `"value"` array (also
covering a falsy result) and presence of `"@odata.nextLink"`. -/
structure SearchResp (α : Type) where
  value : Option (List (SResp α))
  nextLink : Bool
  deriving Repr, DecidableEq

/-- The innermost `for hit in container["hits"]` loop (graph.py lines
418-422), with the same truthy guard `if limit and items_returned >=
limit`.  Returns yielded resources, updated `items_returned`, and
whether the generator executed `return`. -/
def hitsLoop {α : Type} (limit ir : Nat) : List (Hit α) → List α × Nat × Bool
  | [] => ([], ir, false)
  | h :: rest =>
    if limitReached (some limit) ir then ([], ir, true)
    else
      let r := hitsLoop limit (ir + 1) rest
      (h.resource :: r.1, r.2.1, r.2.2)

/-- The `for container in response["hitsContainers"]` loop (graph.py
lines 416-422); a missing `"hits"` key skips the container. -/
def containersLoop {α : Type} (limit ir : Nat) :
    List (Container α) → List α × Nat × Bool
  | [] => ([], ir, false)
  | c :: rest =>
    let r := hitsLoop limit ir (c.hits.getD [])
    if r.2.2 then (r.1, r.2.1, true)
    else
      let r2 := containersLoop limit r.2.1 rest
      (r.1 ++ r2.1, r2.2.1, r2.2.2)

/-- The `for response in result["value"]` loop (graph.py lines 414-422);
a missing `"hitsContainers"` key skips the response. -/
def responsesLoop {α : Type} (limit ir : Nat) :
    List (SResp α) → List α × Nat × Bool
  | [] => ([], ir, false)
  | s :: rest =>
    let r := containersLoop limit ir (s.hitsContainers.getD [])
    if r.2.2 then (r.1, r.2.1, true)
    else
      let r2 := responsesLoop limit r.2.1 rest
      (r.1 ++ r2.1, r2.2.1, r2.2.2)

/-- The `has_more` scan (graph.py lines 427-432): any container of any
response reports `moreResultsAvailable` truthy. -/
def hasMore {α : Type} (rs : List (SResp α)) : Bool :=
  rs.any (fun r => (r.hitsContainers.getD []).any (·.moreResultsAvailable))

/-- The `while True` loop of `search_query` (graph.py lines 408-437):
`script` lists the successive parsed responses to `POST /search/query`
(an exhausted script models a falsy result).  Returns the yielded
resources and the number of requests issued.  One fetch per cycle; a
falsy result or missing `"value"` breaks; after yielding, the loop
breaks when `"@odata.nextLink"` is present in the response, and
otherwise continues only when some container reports more results
(advancing the `from` offset, which only affects what the server — here
the script — returns next). -/
def searchLoop {α : Type} (limit ir : Nat) :
    List (SearchResp α) → List α × Nat
  | [] => ([], 1)
  | resp :: rest =>
    match resp.value with
    | none => ([], 1)
    | some rs =>
      let r := responsesLoop limit ir rs
      if r.2.2 then (r.1, 1)
      else if resp.nextLink then (r.1, 1)
      else if hasMore rs then
        let r2 := searchLoop limit r.2.1 rest
        (r.1 ++ r2.1, r2.2 + 1)
      else (r.1, 1)

/-- All hit resources of one response cycle, flattened in nested order
(response, then container, then hit). -/
def allHits {α : Type} (rs : List (SResp α)) : List α :=
  rs.flatMap (fun r =>
    (r.hitsContainers.getD []).flatMap (fun c =>
      (c.hits.getD []).map (·.resource)))

/-! ## Chunked upload (`_do_chunked_upload`, graph.py lines 261-305) -/

/-- `UPLOAD_CHUNK_SIZE = 15 * 320 * 1024` (graph.py line 8). -/
def UPLOAD_CHUNK_SIZE : Nat := 15 * 320 * 1024

/-- One chunk PUT as framed by the loop body (graph.py lines 269-278):
byte range `[start, stop)`, the sliced bytes `data[start:stop]`, and the
`Content-Length` / `Content-Range` header values. -/
structure ChunkPut where
  start : Nat
  stop : Nat
  content : List Nat
  contentLength : String
  contentRange : String
  deriving Repr, DecidableEq

instance : Inhabited ChunkPut :=
  ⟨{ start := 0, stop := 0, content := [], contentLength := "", contentRange := "" }⟩

/-- The chunk framed at offset `s`: `chunk_start = s`,
`chunk_end = min(s + UPLOAD_CHUNK_SIZE, file_size)`,
`chunk = data[chunk_start:chunk_end]`,
`Content-Length = str(len(chunk))`,
`Content-Range = f"bytes {chunk_start}-{chunk_end - 1}/{file_size}"`. -/
def mkPut (data : List Nat) (s : Nat) : ChunkPut :=
  { start := s
    stop := min (s + UPLOAD_CHUNK_SIZE) data.length
    content := (data.drop s).take (min (s + UPLOAD_CHUNK_SIZE) data.length - s)
    contentLength :=
      toString ((data.drop s).take
        (min (s + UPLOAD_CHUNK_SIZE) data.length - s)).length
    contentRange :=
      "bytes " ++ toString s ++ "-"
        ++ toString (min (s + UPLOAD_CHUNK_SIZE) data.length - 1)
        ++ "/" ++ toString data.length }

/-- The `for i in range(0, file_size, UPLOAD_CHUNK_SIZE)` loop of
`_do_chunked_upload`, collecting the successive chunk PUTs it frames
(the per-chunk retry loop and the early return on a terminal 200/201
response do not change the framing of the chunks the loop constructs). -/
def chunkPutsGo (data : List Nat) (i : Nat) : List ChunkPut :=
  if h : i < data.length then
    mkPut data i :: chunkPutsGo data (i + UPLOAD_CHUNK_SIZE)
  else []
  termination_by data.length - i
  decreasing_by
    simp only [UPLOAD_CHUNK_SIZE]
    omega

/-- All chunk PUTs of one `_do_chunked_upload` call. -/
def chunkPuts (data : List Nat) : List ChunkPut := chunkPutsGo data 0

/-! ## Concrete inputs used by witnesses and counterexamples -/

/-- Five requests with distinct ids. -/
def reqs5 : List Req :=
  [{ id := "a" }, { id := "b" }, { id := "c" }, { id := "d" }, { id := "e" }]

/-- Two requests, the second with a caller-supplied `dependsOn`,
as documented in the `batch_request` docstring. -/
def reqsPre : List Req := [{ id := "a" }, { id := "b", dependsOn := some ["a"] }]

/-- A single plain request. -/
def reqs1 : List Req := [{ id := "x" }]

/-- Twenty-one requests. -/
def reqs21 : List Req := List.replicate 21 dReq

/-- A single request with id `"1"`. -/
def reqC5 : Req := { id := "1" }

/-- A server that always answers 200 with an empty `"responses"` array. -/
def serverOkEmpty : Nat → BatchHttpResp := fun _ => { status := 200 }

/-- Page 1 of the C7 scenario: two items and a cursor. -/
def c7page1 : Page Nat := { value := some [0, 1], nextLink := some "next" }

/-- Page 2 of the C7 scenario: five items, no cursor. -/
def c7page2 : Page Nat := { value := some [2, 3, 4, 5, 6], nextLink := none }

/-- A search response carrying a `"@odata.nextLink"` cursor while a
container still reports more results available. -/
def c8resp : SearchResp Nat :=
  { value := some [⟨some [⟨some [⟨7⟩], true⟩]⟩], nextLink := true }

/-- The hit lists inside `c8resp`. -/
def c8rs : List (SResp Nat) := [⟨some [⟨some [⟨7⟩], true⟩]⟩]

/-- A two-page script whose last page has no cursor, for the C10
witness. -/
def c10script : List (Page Nat) :=
  [{ value := some [1, 2], nextLink := some "n" },
   { value := some [3], nextLink := none }]

/-! ### Helper lemmas about the batch payload -/

lemma chunkLoop_length (requests : List Req) (i : Nat) (l : List Req) :
    (chunkLoop requests i l).length = l.length := by
  induction l generalizing i with
  | nil => rfl
  | cons a t ih => simp [chunkLoop, ih]

lemma chunkLoop_getD (requests : List Req) (l : List Req) (i j : Nat)
    (h : j < l.length) :
    (chunkLoop requests i l).getD j dReq =
      chunkStep requests (i + j) (l.getD j dReq) := by
  induction l generalizing i j with
  | nil => simp at h
  | cons a t ih =>
    cases j with
    | zero => simp [chunkLoop]
    | succ j =>
      have ht : j < t.length := by simpa using h
      have := ih (i + 1) j ht
      simpa [chunkLoop, Nat.add_assoc, Nat.add_comm 1 j] using this

lemma chunkStep_pos (requests : List Req) (i : Nat) (hi : 0 < i) (req : Req) :
    chunkStep requests i req =
      { req with dependsOn := some [(requests.getD (i - 1) dReq).id] } := by
  unfold chunkStep
  by_cases h : i % 4 = 0
  · have h4 : 4 ≤ i := by omega
    rw [if_pos h, if_pos ⟨h4, h⟩]
  · rw [if_neg h, if_neg (by exact fun hc => h hc.2)]

lemma batchLoop_returned (server : Nat → BatchHttpResp) (maxRetries : Nat) :
    ∀ n rc calls body calls2, maxRetries + 1 - rc ≤ n →
      batchLoop server maxRetries rc calls = .returned body calls2 →
      ∃ k, rc ≤ k ∧ k ≤ maxRetries ∧ body = (server k).body ∧
        (server k).status < 400 := by
  intro n
  induction n with
  | zero =>
    intro rc calls body calls2 hn heq
    unfold batchLoop at heq
    rw [dif_neg (by omega)] at heq
    exact absurd heq (by simp)
  | succ n ih =>
    intro rc calls body calls2 hn heq
    unfold batchLoop at heq
    by_cases hrc : rc ≤ maxRetries
    · rw [dif_pos hrc] at heq
      by_cases h429 : (server rc).status = 429 ∧ rc < maxRetries
      · rw [dif_pos h429] at heq
        obtain ⟨k, hk1, hk2, hk3, hk4⟩ := ih (rc + 1) (calls + 1) body calls2 (by omega) heq
        exact ⟨k, by omega, hk2, hk3, hk4⟩
      · rw [dif_neg h429] at heq
        by_cases h5xx : 500 ≤ (server rc).status ∧ rc < maxRetries
        · rw [dif_pos h5xx] at heq
          obtain ⟨k, hk1, hk2, hk3, hk4⟩ := ih (rc + 1) (calls + 1) body calls2 (by omega) heq
          exact ⟨k, by omega, hk2, hk3, hk4⟩
        · rw [dif_neg h5xx] at heq
          by_cases h4 : 400 ≤ (server rc).status
          · rw [if_pos h4] at heq
            exact absurd heq (by simp)
          · rw [if_neg h4] at heq
            have hb : (server rc).body = body := by
              injection heq
            exact ⟨rc, le_refl rc, hrc, hb.symm, by omega⟩
    · rw [dif_neg hrc] at heq
      exact absurd heq (by simp)

/-! ## Claim theorems -/

/-- C1: for every batch envelope of length n with 4 < n ≤ 20,
`batch_request` submits a payload in which every item except the first
carries exactly one `dependsOn` entry — the id of the item at the
previous index — so the injected links form a single linear chain over
all n−1 non-first items. -/
theorem batch_chain (requests : List Req) (h4 : 4 < requests.length)
    (h20 : requests.length ≤ 20) :
    batchPlan requests = .submit (batchPayload requests) ∧
    (batchPayload requests).length = requests.length ∧
    ∀ i, 0 < i → i < requests.length →
      ((batchPayload requests).getD i dReq).dependsOn =
        some [(requests.getD (i - 1) dReq).id] := by
  have hne : requests ≠ [] := by
    intro h
    rw [h] at h4
    simp at h4
  have hpay : batchPayload requests = chunkLoop requests 0 requests := by
    unfold batchPayload
    rw [if_neg (by omega)]
  refine ⟨?_, ?_, ?_⟩
  · unfold batchPlan
    rw [if_neg hne, if_neg (by omega)]
  · rw [hpay, chunkLoop_length]
  · intro i hi hlen
    rw [hpay, chunkLoop_getD requests requests 0 i hlen, Nat.zero_add,
      chunkStep_pos requests i hi]

/-- Witness for C1 at a concrete five-element envelope. -/
theorem batch_chain_witness :
    4 < reqs5.length ∧ reqs5.length ≤ 20 ∧
    ((batchPayload reqs5).getD 3 dReq).dependsOn =
      some [(reqs5.getD 2 dReq).id] :=
  ⟨by decide, by decide,
    (batch_chain reqs5 (by decide) (by decide)).2.2 3 (by decide) (by decide)⟩

/-- C6 counterexample: an envelope of length 2 whose second item carries
a caller-supplied `dependsOn` (as the `batch_request` docstring allows)
is submitted with that item still carrying `dependsOn`, so the payload
is not free of `dependsOn` fields. -/
theorem batch_small_counterexample :
    reqsPre.length ≤ 4 ∧
    batchPlan reqsPre = .submit (batchPayload reqsPre) ∧
    ((batchPayload reqsPre).getD 1 dReq).dependsOn = some ["a"] :=
  ⟨by decide, by decide, by decide⟩

/-- C6 (amended): for envelopes of length ≤ 4, `batch_request` submits
the envelope unchanged — no dependency links are injected — so an item
of the payload carries `dependsOn` only if the caller supplied it. -/
theorem batch_small_submits_unchanged (requests : List Req)
    (h : requests.length ≤ 4) :
    batchPayload requests = requests ∧
    ((∀ r ∈ requests, r.dependsOn = none) →
      ∀ r ∈ batchPayload requests, r.dependsOn = none) := by
  have hp : batchPayload requests = requests := by
    unfold batchPayload
    rw [if_pos h]
  exact ⟨hp, fun hall r hr => hall r (hp ▸ hr)⟩

/-- Witness for the amended C6 at a concrete one-element envelope. -/
theorem batch_small_submits_unchanged_witness :
    reqs1.length ≤ 4 ∧ batchPayload reqs1 = reqs1 :=
  ⟨by decide, (batch_small_submits_unchanged reqs1 (by decide)).1⟩

/-- C4: `batch_request` on the empty list returns the empty
`{"responses": []}` result with zero network calls, and on a list of
more than 20 items raises the validation error with zero network
calls. -/
theorem batch_request_validation (server : Nat → BatchHttpResp)
    (maxRetries : Nat) (requests : List Req) (h : 20 < requests.length) :
    batch_request [] server maxRetries = .returned ⟨[]⟩ 0 ∧
    batch_request requests server maxRetries =
      .validationError "Batch requests cannot exceed 20 items" 0 := by
  constructor
  · rfl
  · unfold batch_request batchPlan
    rw [if_neg (by
      intro hh
      rw [hh] at h
      simp at h), if_pos h]

/-- Witness for C4 at a concrete 21-element envelope. -/
theorem batch_request_validation_witness :
    20 < reqs21.length ∧
    (batch_request [] serverOkEmpty 3 = .returned ⟨[]⟩ 0 ∧
     batch_request reqs21 serverOkEmpty 3 =
       .validationError "Batch requests cannot exceed 20 items" 0) :=
  ⟨by decide, batch_request_validation serverOkEmpty 3 reqs21 (by decide)⟩

/-- C5 counterexample: submitting the single id `"1"` to a server that
answers 200 with an empty `"responses"` array makes `batch_request`
return that body as-is after one call — the submitted id is absent from
the result and no protocol error is raised. -/
theorem batch_missing_id_returned_asis :
    batch_request [reqC5] serverOkEmpty 3 = .returned ⟨[]⟩ 1 ∧
    ((⟨[]⟩ : BatchBody).responses.any (fun s => s.id == reqC5.id)) = false := by
  constructor
  · unfold batch_request batchPlan
    rw [if_neg (by simp), if_neg (by simp)]
    unfold batchLoop
    rw [dif_pos (by omega), dif_neg (by simp [serverOkEmpty]),
      dif_neg (by simp [serverOkEmpty]), if_neg (by simp [serverOkEmpty])]
    rfl
  · rfl

/-- C5 (amended): on a non-empty envelope, the body `batch_request`
returns is some server response's parsed body, returned verbatim — the
function performs no check that every submitted id appears in it. -/
theorem batch_returns_server_body (requests : List Req)
    (server : Nat → BatchHttpResp) (maxRetries : Nat) (body : BatchBody)
    (calls : Nat) (hne : requests ≠ [])
    (h : batch_request requests server maxRetries = .returned body calls) :
    ∃ k, k ≤ maxRetries ∧ body = (server k).body ∧ (server k).status < 400 := by
  unfold batch_request at h
  rcases hp : batchPlan requests with _ | msg | payload
  · exfalso
    unfold batchPlan at hp
    rw [if_neg hne] at hp
    split at hp <;> simp_all
  · rw [hp] at h
    exact absurd h (by simp)
  · rw [hp] at h
    obtain ⟨k, hk1, hk2, hk3, hk4⟩ :=
      batchLoop_returned server maxRetries (maxRetries + 1) 0 0 body calls
        (by omega) h
    exact ⟨k, hk2, hk3, hk4⟩

/-- Witness for the amended C5 at the concrete single-id envelope and
the always-200 server. -/
theorem batch_returns_server_body_witness :
    ∃ k, k ≤ 3 ∧ (⟨[]⟩ : BatchBody) = (serverOkEmpty k).body ∧
      (serverOkEmpty k).status < 400 :=
  batch_returns_server_body [reqC5] serverOkEmpty 3 ⟨[]⟩ 1 (by simp)
    (by
      unfold batch_request batchPlan
      rw [if_neg (by simp), if_neg (by simp)]
      unfold batchLoop
      rw [dif_pos (by omega), dif_neg (by simp [serverOkEmpty]),
        dif_neg (by simp [serverOkEmpty]), if_neg (by simp [serverOkEmpty])]
      rfl)

lemma requestLoop_spec (responses : Nat → HttpResp) (maxRetries : Nat) :
    ∀ n rc, maxRetries + 1 - rc ≤ n → rc ≤ maxRetries →
      (requestLoop responses maxRetries rc).2.length + rc ≤ maxRetries ∧
      (requestLoop responses maxRetries rc).1 ≠ .fellThrough ∧
      ((requestLoop responses maxRetries rc).1 = .success none →
        ∃ k, rc ≤ k ∧ k ≤ maxRetries ∧ (responses k).status < 400 ∧
          (responses k).content = "") ∧
      ((∀ k, rc ≤ k → k ≤ maxRetries →
          (responses k).status = 429 ∨ 500 ≤ (responses k).status) →
        (requestLoop responses maxRetries rc).1 =
          .error (responses maxRetries).status) := by
  intro n
  induction n with
  | zero =>
    intro rc hn hrc
    omega
  | succ n ih =>
    intro rc hn hrc
    unfold requestLoop
    rw [dif_pos hrc]
    by_cases h429 : (responses rc).status = 429 ∧ rc < maxRetries
    · rw [dif_pos h429]
      obtain ⟨ih1, ih2, ih3, ih4⟩ := ih (rc + 1) (by omega) (by omega)
      refine ⟨by simpa using by omega, ih2, ?_, ?_⟩
      · intro hs
        obtain ⟨k, hk1, hk2, hk3, hk4⟩ := ih3 hs
        exact ⟨k, by omega, hk2, hk3, hk4⟩
      · intro hall
        exact ih4 (fun k hk1 hk2 => hall k (by omega) hk2)
    · rw [dif_neg h429]
      by_cases h5xx : 500 ≤ (responses rc).status ∧ rc < maxRetries
      · rw [dif_pos h5xx]
        obtain ⟨ih1, ih2, ih3, ih4⟩ := ih (rc + 1) (by omega) (by omega)
        refine ⟨by simpa using by omega, ih2, ?_, ?_⟩
        · intro hs
          obtain ⟨k, hk1, hk2, hk3, hk4⟩ := ih3 hs
          exact ⟨k, by omega, hk2, hk3, hk4⟩
        · intro hall
          exact ih4 (fun k hk1 hk2 => hall k (by omega) hk2)
      · rw [dif_neg h5xx]
        by_cases h4 : 400 ≤ (responses rc).status
        · rw [if_pos h4]
          refine ⟨by simpa using hrc, by simp, by simp, ?_⟩
          intro hall
          have hrcmax : rc = maxRetries := by
            rcases hall rc (le_refl rc) hrc with hc | hc
            · omega
            · omega
          simp [hrcmax]
        · rw [if_neg h4]
          have hrcmax : ¬((responses rc).status = 429 ∨ 500 ≤ (responses rc).status) := by
            omega
          by_cases hc : (responses rc).content ≠ ""
          · rw [if_pos hc]
            exact ⟨by simpa using hrc, by simp, by simp,
              fun hall => absurd (hall rc (le_refl rc) hrc) hrcmax⟩
          · rw [if_neg hc]
            refine ⟨by simpa using hrc, by simp, ?_,
              fun hall => absurd (hall rc (le_refl rc) hrc) hrcmax⟩
            intro _
            exact ⟨rc, le_refl rc, hrc, by omega, by simpa using hc⟩

/-- C3: `request` performs at most `max_retries` retry sleeps; it never
falls out of the retry loop (so the trailing `return None` is dead and
absence is never caused by exhausted retries); a `None` return only
arises from a success response with empty body; and when every response
within the budget is retryable (429 or 5xx), the call raises the final
HTTP status error instead of returning a result. -/
theorem request_retry_bound (responses : Nat → HttpResp) (maxRetries : Nat) :
    (requestLoop responses maxRetries 0).2.length ≤ maxRetries ∧
    (requestLoop responses maxRetries 0).1 ≠ .fellThrough ∧
    ((requestLoop responses maxRetries 0).1 = .success none →
      ∃ k, k ≤ maxRetries ∧ (responses k).status < 400 ∧
        (responses k).content = "") ∧
    ((∀ k, k ≤ maxRetries →
        (responses k).status = 429 ∨ 500 ≤ (responses k).status) →
      (requestLoop responses maxRetries 0).1 =
        .error (responses maxRetries).status) := by
  obtain ⟨h1, h2, h3, h4⟩ :=
    requestLoop_spec responses maxRetries (maxRetries + 1) 0 (by omega) (by omega)
  refine ⟨by omega, h2, ?_, fun hall => h4 (fun k _ hk => hall k hk)⟩
  intro hs
  obtain ⟨k, _, hk2, hk3, hk4⟩ := h3 hs
  exact ⟨k, hk2, hk3, hk4⟩

/-- Witness for C3 at a concrete response script (always 429) and
budget 3, exercising the exhaustion branch. -/
theorem request_retry_bound_witness :
    (requestLoop (fun _ => { status := 429 }) 3 0).2.length ≤ 3 ∧
    (requestLoop (fun _ => { status := 429 }) 3 0).1 = .error 429 :=
  ⟨(request_retry_bound (fun _ => { status := 429 }) 3).1,
    (request_retry_bound (fun _ => { status := 429 }) 3).2.2.2
      (fun k _ => Or.inl rfl)⟩

lemma lookup_append_of_hasKey_false (params : List (String × String))
    (k v : String) (h : hasKey params k = false) :
    (params ++ [(k, v)]).lookup k = some v := by
  induction params with
  | nil => simp [List.lookup]
  | cons p t ih =>
    have hp : ¬(p.1 = k) := by
      intro he
      simp [hasKey, he] at h
    have ht : hasKey t k = false := by
      simp [hasKey] at h ⊢
      exact h.2
    have hk : (k == p.1) = false := by
      simp [BEq.beq]
      exact fun he => hp he.symm
    simp [List.lookup, hk]
    exact ih ht

/-- C9: when the caller's `params` dict contains a `"$search"` key, or a
`"$filter"` value containing `"contains("` or `"/any("`, and no
`"$count"` key, `request` writes `"$count": "true"` into the caller's
dict: afterwards the dict is the old one extended with exactly that
entry, and lookup of `"$count"` yields `"true"`. -/
theorem request_mutates_params (params : List (String × String))
    (hcond : hasKey params "$search" = true ∨
      containsStr (getDefault params "$filter" "") "contains(" = true ∨
      containsStr (getDefault params "$filter" "") "/any(" = true)
    (hnocount : hasKey params "$count" = false) :
    paramsAfterRequest params = params ++ [("$count", "true")] ∧
    (paramsAfterRequest params).lookup "$count" = some "true" := by
  have hne : params.isEmpty = false := by
    cases params with
    | nil =>
      rcases hcond with h | h | h
      · simp [hasKey] at h
      · revert h
        decide
      · revert h
        decide
    | cons p t => rfl
  have hguard : needsConsistency params = true := by
    unfold needsConsistency
    rw [hne]
    rcases hcond with h | h | h <;> simp [h]
  have heq : paramsAfterRequest params = params ++ [("$count", "true")] := by
    unfold paramsAfterRequest setdefault
    rw [if_pos hguard, if_neg (by simp [hnocount])]
  exact ⟨heq, by rw [heq, lookup_append_of_hasKey_false params _ _ hnocount]⟩

/-- Witness for C9 at the concrete dict `{"$search": "boss"}`. -/
theorem request_mutates_params_witness :
    (hasKey [("$search", "boss")] "$search" = true ∨
      containsStr (getDefault [("$search", "boss")] "$filter" "") "contains(" = true ∨
      containsStr (getDefault [("$search", "boss")] "$filter" "") "/any(" = true) ∧
    hasKey [("$search", "boss")] "$count" = false ∧
    paramsAfterRequest [("$search", "boss")] =
      [("$search", "boss"), ("$count", "true")] :=
  ⟨Or.inl (by decide), by decide,
    (request_mutates_params [("$search", "boss")] (Or.inl (by decide))
      (by decide)).1⟩


/-! ### Helper lemmas about pagination -/

lemma yieldPage_cons {α : Type} (limit : Option Nat) (ir : Nat) (a : α)
    (t : List α) :
    yieldPage limit ir (a :: t) =
      if limitReached limit ir then ([], ir, true)
      else (a :: (yieldPage limit (ir + 1) t).1,
        (yieldPage limit (ir + 1) t).2.1, (yieldPage limit (ir + 1) t).2.2) := rfl

lemma paginate_cons {α : Type} (limit : Option Nat) (ir : Nat) (page : Page α)
    (rest : List (Page α)) :
    paginate limit ir (page :: rest) =
      if (yieldPage limit ir (page.value.getD [])).2.2 then
        ((yieldPage limit ir (page.value.getD [])).1, 1)
      else
        match page.nextLink with
        | none => ((yieldPage limit ir (page.value.getD [])).1, 1)
        | some _ =>
          ((yieldPage limit ir (page.value.getD [])).1 ++
            (paginate limit (yieldPage limit ir (page.value.getD [])).2.1 rest).1,
           (paginate limit (yieldPage limit ir (page.value.getD [])).2.1 rest).2 + 1) := rfl

lemma yieldPage_items_returned {α : Type} (limit : Option Nat) :
    ∀ (l : List α) (ir : Nat),
      (yieldPage limit ir l).2.1 = ir + (yieldPage limit ir l).1.length := by
  intro l
  induction l with
  | nil => intro ir; simp [yieldPage]
  | cons a t ih =>
    intro ir
    rw [yieldPage_cons]
    by_cases h : limitReached limit ir
    · rw [if_pos h]
      simp
    · rw [if_neg h]
      dsimp only
      rw [ih (ir + 1)]
      simp only [List.length_cons]
      omega

lemma yieldPage_le {α : Type} (lim : Nat) (hl : 0 < lim) :
    ∀ (l : List α) (ir : Nat),
      (yieldPage (some lim) ir l).1.length + ir ≤ max lim ir := by
  intro l
  induction l with
  | nil =>
    intro ir
    simp [yieldPage]
  | cons a t ih =>
    intro ir
    rw [yieldPage_cons]
    by_cases h : limitReached (some lim) ir
    · rw [if_pos h]
      simp
    · have hir : ir < lim := by
        simp [limitReached] at h
        omega
      rw [if_neg h]
      dsimp only
      have := ih (ir + 1)
      simp only [List.length_cons]
      omega

lemma paginate_le {α : Type} (lim : Nat) (hl : 0 < lim) :
    ∀ (script : List (Page α)) (ir : Nat),
      (paginate (some lim) ir script).1.length + ir ≤ max lim ir := by
  intro script
  induction script with
  | nil =>
    intro ir
    simp [paginate]
  | cons page rest ih =>
    intro ir
    rw [paginate_cons]
    by_cases hst : (yieldPage (some lim) ir (page.value.getD [])).2.2
    · rw [if_pos hst]
      exact yieldPage_le lim hl (page.value.getD []) ir
    · rw [if_neg hst]
      rcases hnl : page.nextLink with _ | link
    

      · exact yieldPage_le lim hl (page.value.getD []) ir
      · dsimp only
        have h1 := yieldPage_le lim hl (page.value.getD []) ir
        have h2 := yieldPage_items_returned (some lim) (page.value.getD []) ir
        have h3 := ih (yieldPage (some lim) ir (page.value.getD [])).2.1
        simp only [List.length_append]
        omega

lemma limitReached_zero (ir : Nat) : limitReached (some 0) ir = false := rfl

lemma limitReached_none (ir : Nat) : limitReached none ir = false := rfl

lemma yieldPage_of_no_limit {α : Type} (limit : Option Nat)
    (hl : ∀ ir, limitReached limit ir = false) :
    ∀ (l : List α) (ir : Nat),
      yieldPage limit ir l = (l, ir + l.length, false) := by
  intro l
  induction l with
  | nil => intro ir; simp [yieldPage]
  | cons a t ih =>
    intro ir
    rw [yieldPage_cons, if_neg (by rw [hl ir]; simp), ih (ir + 1)]
    dsimp only
    simp only [List.length_cons, Prod.mk.injEq]
    refine ⟨trivial, by omega, trivial⟩

lemma paginate_zero_eq_none {α : Type} :
    ∀ (script : List (Page α)) (ir : Nat),
      paginate (some 0) ir script = paginate none ir script := by
  intro script
  induction script with
  | nil => intro ir; rfl
  | cons page rest ih =>
    intro ir
    rw [paginate_cons, paginate_cons,
      yieldPage_of_no_limit (some 0) limitReached_zero (page.value.getD []) ir,
      yieldPage_of_no_limit none limitReached_none (page.value.getD []) ir]
    rcases hnl : page.nextLink with _ | link
    · simp
    · simp only [ih (ir + (page.value.getD []).length)]

lemma paginate_zero_yields_all_from {α : Type} :
    ∀ (script : List (Page α)) (ir : Nat),
      (∀ p ∈ script.dropLast, p.nextLink.isSome) →
      script.getLast?.map (fun p => p.nextLink) = some none →
      paginate (some 0) ir script =
        (script.flatMap (fun p => p.value.getD []), script.length) := by
  intro script
  induction script with
  | nil =>
    intro ir _ hlast
    simp at hlast
  | cons page rest ih =>
    intro ir hdrop hlast
    cases rest with
    | nil =>
      have hnl : page.nextLink = none := by
        simp at hlast
        exact hlast
      rw [paginate_cons,
        yieldPage_of_no_limit (some 0) limitReached_zero (page.value.getD []) ir,
        hnl]
      simp
    | cons q t =>
      have hdrop2 : ∀ p ∈ (q :: t).dropLast, p.nextLink.isSome := by
        intro p hp
        apply hdrop
        rw [List.dropLast_cons₂]
        exact List.mem_cons_of_mem page hp
      have hlast2 : (q :: t).getLast?.map (fun p => p.nextLink) = some none := by
        rw [List.getLast?_cons_cons] at hlast
        exact hlast
      have hnl : page.nextLink.isSome := by
        apply hdrop
        simp [List.dropLast_cons₂]
      rcases hlink : page.nextLink with _ | link
      · rw [hlink] at hnl
        simp at hnl
      · rw [paginate_cons,
          yieldPage_of_no_limit (some 0) limitReached_zero (page.value.getD []) ir,
          hlink]
        dsimp only
        rw [ih (ir + (page.value.getD []).length) hdrop2 hlast2]
        simp

/-! ### Helper lemmas about the search loop -/

lemma hitsLoop_cons {α : Type} (limit ir : Nat) (h : Hit α) (t : List (Hit α)) :
    hitsLoop limit ir (h :: t) =
      if limitReached (some limit) ir then ([], ir, true)
      else (h.resource :: (hitsLoop limit (ir + 1) t).1,
        (hitsLoop limit (ir + 1) t).2.1, (hitsLoop limit (ir + 1) t).2.2) := rfl

lemma containersLoop_cons {α : Type} (limit ir : Nat) (c : Container α)
    (t : List (Container α)) :
    containersLoop limit ir (c :: t) =
      if (hitsLoop limit ir (c.hits.getD [])).2.2 then
        ((hitsLoop limit ir (c.hits.getD [])).1,
         (hitsLoop limit ir (c.hits.getD [])).2.1, true)
      else
        ((hitsLoop limit ir (c.hits.getD [])).1 ++
          (containersLoop limit (hitsLoop limit ir (c.hits.getD [])).2.1 t).1,
         (containersLoop limit (hitsLoop limit ir (c.hits.getD [])).2.1 t).2.1,
         (containersLoop limit (hitsLoop limit ir (c.hits.getD [])).2.1 t).2.2) := rfl

lemma responsesLoop_cons {α : Type} (limit ir : Nat) (s : SResp α)
    (t : List (SResp α)) :
    responsesLoop limit ir (s :: t) =
      if (containersLoop limit ir (s.hitsContainers.getD [])).2.2 then
        ((containersLoop limit ir (s.hitsContainers.getD [])).1,
         (containersLoop limit ir (s.hitsContainers.getD [])).2.1, true)
      else
        ((containersLoop limit ir (s.hitsContainers.getD [])).1 ++
          (responsesLoop limit
            (containersLoop limit ir (s.hitsContainers.getD [])).2.1 t).1,
         (responsesLoop limit
           (containersLoop limit ir (s.hitsContainers.getD [])).2.1 t).2.1,
         (responsesLoop limit
           (containersLoop limit ir (s.hitsContainers.getD [])).2.1 t).2.2) := rfl

lemma searchLoop_cons {α : Type} (limit ir : Nat) (resp : SearchResp α)
    (rest : List (SearchResp α)) :
    searchLoop limit ir (resp :: rest) =
      match resp.value with
      | none => ([], 1)
      | some rs =>
        if (responsesLoop limit ir rs).2.2 then ((responsesLoop limit ir rs).1, 1)
        else if resp.nextLink then ((responsesLoop limit ir rs).1, 1)
        else if hasMore rs then
          ((responsesLoop limit ir rs).1 ++
            (searchLoop limit (responsesLoop limit ir rs).2.1 rest).1,
           (searchLoop limit (responsesLoop limit ir rs).2.1 rest).2 + 1)
        else ((responsesLoop limit ir rs).1, 1) := rfl

lemma allHits_cons {α : Type} (s : SResp α) (t : List (SResp α)) :
    allHits (s :: t) =
      (s.hitsContainers.getD []).flatMap
        (fun c => (c.hits.getD []).map (·.resource)) ++ allHits t := by
  simp [allHits]

lemma hitsLoop_zero {α : Type} :
    ∀ (l : List (Hit α)) (ir : Nat),
      hitsLoop 0 ir l = (l.map (·.resource), ir + l.length, false) := by
  intro l
  induction l with
  | nil => intro ir; simp [hitsLoop]
  | cons h t ih =>
    intro ir
    rw [hitsLoop_cons, if_neg (by simp [limitReached]), ih (ir + 1)]
    dsimp only
    simp only [List.map_cons, List.length_cons, Prod.mk.injEq]
    refine ⟨trivial, by omega, trivial⟩

lemma containersLoop_zero {α : Type} :
    ∀ (cs : List (Container α)) (ir : Nat),
      containersLoop 0 ir cs =
        (cs.flatMap (fun c => (c.hits.getD []).map (·.resource)),
         ir + (cs.flatMap (fun c => (c.hits.getD []).map (·.resource))).length,
         false) := by
  intro cs
  induction cs with
  | nil => intro ir; simp [containersLoop]
  | cons c t ih =>
    intro ir
    rw [containersLoop_cons, hitsLoop_zero (c.hits.getD []) ir]
    dsimp only
    rw [if_neg (by simp), ih (ir + (c.hits.getD []).length)]
    simp only [List.flatMap_cons, List.length_append, List.length_map,
      Prod.mk.injEq]
    refine ⟨trivial, by omega, trivial⟩

lemma responsesLoop_zero {α : Type} :
    ∀ (rs : List (SResp α)) (ir : Nat),
      responsesLoop 0 ir rs = (allHits rs, ir + (allHits rs).length, false) := by
  intro rs
  induction rs with
  | nil => intro ir; simp [responsesLoop, allHits]
  | cons s t ih =>
    intro ir
    rw [responsesLoop_cons, containersLoop_zero (s.hitsContainers.getD []) ir]
    dsimp only
    rw [if_neg (by simp),
      ih (ir + ((s.hitsContainers.getD []).flatMap
        (fun c => (c.hits.getD []).map (·.resource))).length),
      allHits_cons]
    simp only [List.length_append, Prod.mk.injEq]
    refine ⟨trivial, by omega, trivial⟩

/-- C7: over the two-page scenario (page 1: two items and a cursor,
page 2: five items) with `limit=3`, `request_paginated` yields exactly
the first three items and performs exactly two underlying fetches; and
in general the yielded sequence never exceeds a non-zero limit — the
generator returns the instant the limit is reached, even mid-page. -/
theorem paginate_limit_scenario :
    paginate (some 3) 0 [c7page1, c7page2] = ([0, 1, 2], 2) ∧
    ∀ (α : Type) (script : List (Page α)) (l : Nat),
      (paginate (some (l + 1)) 0 script).1.length ≤ l + 1 := by
  constructor
  · decide
  · intro α script l
    have := paginate_le (l + 1) (by omega) script 0
    simpa using this

/-- C8: whenever a `/search/query` response carries an
`"@odata.nextLink"` field, `search_query` yields that response's hits
and terminates without issuing any further request — regardless of any
container's `moreResultsAvailable` flag. -/
theorem search_stops_on_cursor {α : Type} (limit ir : Nat)
    (resp : SearchResp α) (rest : List (SearchResp α)) (rs : List (SResp α))
    (hval : resp.value = some rs) (hnl : resp.nextLink = true) :
    searchLoop limit ir (resp :: rest) = ((responsesLoop limit ir rs).1, 1) := by
  rw [searchLoop_cons, hval]
  dsimp only
  by_cases hst : (responsesLoop limit ir rs).2.2
  · rw [if_pos hst]
  · rw [if_neg hst, if_pos hnl]

/-- Witness for C8 at a concrete response that carries a cursor while a
container still reports `moreResultsAvailable`. -/
theorem search_stops_on_cursor_witness :
    c8resp.value = some c8rs ∧ c8resp.nextLink = true ∧ hasMore c8rs = true ∧
    searchLoop 50 0 [c8resp] = ((responsesLoop 50 0 c8rs).1, 1) :=
  ⟨rfl, rfl, by decide, search_stops_on_cursor 50 0 c8resp [] c8rs rfl rfl⟩

/-- C10: a limit of 0 is treated as "no limit": `request_paginated` with
`limit=0` behaves exactly as with `limit=None`, yielding every item of
every page until a page omits the cursor; and in `search_query` the
truthy limit guard is never taken when `limit=0`, so every hit of every
response cycle is yielded and the hit loop never early-returns. -/
theorem limit_zero_means_no_limit :
    (∀ (α : Type) (script : List (Page α)) (ir : Nat),
      paginate (some 0) ir script = paginate none ir script) ∧
    (∀ (α : Type) (script : List (Page α)),
      (∀ p ∈ script.dropLast, p.nextLink.isSome) →
      script.getLast?.map (fun p => p.nextLink) = some none →
      paginate (some 0) 0 script =
        (script.flatMap (fun p => p.value.getD []), script.length)) ∧
    (∀ (α : Type) (rs : List (SResp α)) (ir : Nat),
      responsesLoop 0 ir rs = (allHits rs, ir + (allHits rs).length, false)) :=
  ⟨fun _ script ir => paginate_zero_eq_none script ir,
   fun _ script h1 h2 => paginate_zero_yields_all_from script 0 h1 h2,
   fun _ rs ir => responsesLoop_zero rs ir⟩

/-- Witness for C10 at a concrete two-page script whose last page omits
the cursor. -/
theorem limit_zero_means_no_limit_witness :
    (∀ p ∈ c10script.dropLast, p.nextLink.isSome) ∧
    c10script.getLast?.map (fun p => p.nextLink) = some none ∧
    paginate (some 0) 0 c10script =
      (c10script.flatMap (fun p => p.value.getD []), c10script.length) :=
  ⟨by decide, by decide,
    limit_zero_means_no_limit.2.1 Nat c10script (by decide) (by decide)⟩

/-! ### Helper lemmas about the chunked upload -/

lemma chunk_size_pos : 0 < UPLOAD_CHUNK_SIZE := by decide

lemma chunkPutsGo_of_lt (data : List Nat) (i : Nat) (h : i < data.length) :
    chunkPutsGo data i =
      mkPut data i :: chunkPutsGo data (i + UPLOAD_CHUNK_SIZE) := by
  rw [chunkPutsGo.eq_def]
  rw [dif_pos h]

lemma chunkPutsGo_of_ge (data : List Nat) (i : Nat) (h : ¬i < data.length) :
    chunkPutsGo data i = [] := by
  unfold chunkPutsGo
  rw [dif_neg h]

lemma mem_chunkPutsGo (data : List Nat) :
    ∀ (n i : Nat) (p : ChunkPut), data.length - i ≤ n →
      p ∈ chunkPutsGo data i →
      ∃ s, i ≤ s ∧ s < data.length ∧ p = mkPut data s := by
  have hC := chunk_size_pos
  intro n
  induction n with
  | zero =>
    intro i p hn hp
    rw [chunkPutsGo_of_ge data i (by omega)] at hp
    simp at hp
  | succ n ih =>
    intro i p hn hp
    by_cases h : i < data.length
    · rw [chunkPutsGo_of_lt data i h] at hp
      rcases List.mem_cons.mp hp with hp | hp
      · exact ⟨i, le_refl i, h, hp⟩
      · obtain ⟨s, hs1, hs2, hs3⟩ :=
          ih (i + UPLOAD_CHUNK_SIZE) p (by omega) hp
        exact ⟨s, by omega, hs2, hs3⟩
    · rw [chunkPutsGo_of_ge data i h] at hp
      simp at hp

lemma chain_chunkPutsGo (data : List Nat) :
    ∀ (n i : Nat), data.length - i ≤ n →
      List.Chain' (fun p q => p.stop = q.start) (chunkPutsGo data i) := by
  have hC := chunk_size_pos
  intro n
  induction n with
  | zero =>
    intro i hn
    rw [chunkPutsGo_of_ge data i (by omega)]
    exact List.chain'_nil
  | succ n ih =>
    intro i hn
    by_cases h : i < data.length
    · rw [chunkPutsGo_of_lt data i h]
      rw [List.chain'_cons']
      refine ⟨?_, ih (i + UPLOAD_CHUNK_SIZE) (by omega)⟩
      intro q hq
      by_cases h2 : i + UPLOAD_CHUNK_SIZE < data.length
      · rw [chunkPutsGo_of_lt data _ h2] at hq
        simp at hq
        rw [← hq]
        show min (i + UPLOAD_CHUNK_SIZE) data.length = i + UPLOAD_CHUNK_SIZE
        omega
      · rw [chunkPutsGo_of_ge data _ h2] at hq
        simp at hq
    · rw [chunkPutsGo_of_ge data i h]
      exact List.chain'_nil

lemma pairwise_chunkPutsGo (data : List Nat) :
    ∀ (n i : Nat), data.length - i ≤ n →
      (chunkPutsGo data i).Pairwise (fun p q => p.stop ≤ q.start) := by
  have hC := chunk_size_pos
  intro n
  induction n with
  | zero =>
    intro i hn
    rw [chunkPutsGo_of_ge data i (by omega)]
    exact List.Pairwise.nil
  | succ n ih =>
    intro i hn
    by_cases h : i < data.length
    · rw [chunkPutsGo_of_lt data i h]
      refine List.Pairwise.cons ?_ (ih (i + UPLOAD_CHUNK_SIZE) (by omega))
      intro q hq
      obtain ⟨s, hs1, hs2, hs3⟩ :=
        mem_chunkPutsGo data (data.length - (i + UPLOAD_CHUNK_SIZE))
          (i + UPLOAD_CHUNK_SIZE) q (le_refl _) hq
      rw [hs3]
      show min (i + UPLOAD_CHUNK_SIZE) data.length ≤ s
      omega
    · rw [chunkPutsGo_of_ge data i h]
      exact List.Pairwise.nil

lemma getLast_chunkPutsGo (data : List Nat) :
    ∀ (n i : Nat), data.length - i ≤ n → i < data.length →
      (chunkPutsGo data i).getLast?.map (fun p => p.stop) =
        some data.length := by
  have hC := chunk_size_pos
  intro n
  induction n with
  | zero =>
    intro i hn hi
    omega
  | succ n ih =>
    intro i hn hi
    by_cases h2 : i + UPLOAD_CHUNK_SIZE < data.length
    · have hrec := ih (i + UPLOAD_CHUNK_SIZE) (by omega) h2
      rw [chunkPutsGo_of_lt data i hi, chunkPutsGo_of_lt data _ h2,
        List.getLast?_cons_cons]
      rw [chunkPutsGo_of_lt data _ h2] at hrec
      exact hrec
    · rw [chunkPutsGo_of_lt data i hi, chunkPutsGo_of_ge data _ h2]
      simp only [List.getLast?_singleton, Option.map_some']
      show some (min (i + UPLOAD_CHUNK_SIZE) data.length) = some data.length
      congr 1
      omega

lemma dropLast_chunkPutsGo (data : List Nat) :
    ∀ (n i : Nat), data.length - i ≤ n →
      ∀ p ∈ (chunkPutsGo data i).dropLast,
        p.stop - p.start = UPLOAD_CHUNK_SIZE := by
  have hC := chunk_size_pos
  intro n
  induction n with
  | zero =>
    intro i hn p hp
    rw [chunkPutsGo_of_ge data i (by omega)] at hp
    simp at hp
  | succ n ih =>
    intro i hn p hp
    by_cases h : i < data.length
    · rw [chunkPutsGo_of_lt data i h] at hp
      by_cases h2 : i + UPLOAD_CHUNK_SIZE < data.length
      · rw [chunkPutsGo_of_lt data _ h2] at hp
        rw [List.dropLast_cons₂] at hp
        rcases List.mem_cons.mp hp with hp | hp
        · rw [hp]
          show min (i + UPLOAD_CHUNK_SIZE) data.length - i = UPLOAD_CHUNK_SIZE
          omega
        · rw [← chunkPutsGo_of_lt data _ h2] at hp
          exact ih (i + UPLOAD_CHUNK_SIZE) (by omega) p hp
      · rw [chunkPutsGo_of_ge data _ h2] at hp
        simp at hp
    · rw [chunkPutsGo_of_ge data i h] at hp
      simp at hp

lemma cover_chunkPutsGo (data : List Nat) :
    ∀ (n i b : Nat), data.length - i ≤ n → i ≤ b → b < data.length →
      ∃ p ∈ chunkPutsGo data i, p.start ≤ b ∧ b < p.stop := by
  have hC := chunk_size_pos
  intro n
  induction n with
  | zero =>
    intro i b hn hib hb
    omega
  | succ n ih =>
    intro i b hn hib hb
    have h : i < data.length := by omega
    rw [chunkPutsGo_of_lt data i h]
    by_cases hcase : b < min (i + UPLOAD_CHUNK_SIZE) data.length
    · exact ⟨mkPut data i, List.mem_cons_self _ _, hib, hcase⟩
    · obtain ⟨p, hp1, hp2, hp3⟩ :=
        ih (i + UPLOAD_CHUNK_SIZE) b (by omega) (by omega) hb
      exact ⟨p, List.mem_cons_of_mem _ hp1, hp2, hp3⟩

lemma mkPut_content_length (data : List Nat) (s : Nat) (hs : s < data.length) :
    (mkPut data s).content.length = (mkPut data s).stop - s := by
  show ((data.drop s).take (min (s + UPLOAD_CHUNK_SIZE) data.length - s)).length =
    min (s + UPLOAD_CHUNK_SIZE) data.length - s
  rw [List.length_take, List.length_drop]
  omega

/-- C2: for every payload strictly larger than the 4,915,200-byte chunk
size, the chunk PUTs framed by `_do_chunked_upload` have byte ranges
that start at 0, are contiguous, pairwise disjoint, end at the payload
size, and lie inside it; every chunk but the last has length exactly
`UPLOAD_CHUNK_SIZE`; and every PUT carries the sliced bytes of its
range, a `Content-Length` equal to the chunk's length, and a
`Content-Range` of the form `bytes {start}-{end-1}/{total}`. -/
theorem chunked_upload_ranges (data : List Nat)
    (h : UPLOAD_CHUNK_SIZE < data.length) :
    chunkPuts data ≠ [] ∧
    (chunkPuts data).head?.map (fun p => p.start) = some 0 ∧
    (chunkPuts data).getLast?.map (fun p => p.stop) = some data.length ∧
    List.Chain' (fun p q => p.stop = q.start) (chunkPuts data) ∧
    (chunkPuts data).Pairwise (fun p q => p.stop ≤ q.start) ∧
    (∀ p ∈ chunkPuts data, p.start < p.stop ∧ p.stop ≤ data.length ∧
      p.stop ≤ p.start + UPLOAD_CHUNK_SIZE ∧
      p.content = (data.drop p.start).take (p.stop - p.start) ∧
      p.content.length = p.stop - p.start ∧
      p.contentLength = toString (p.stop - p.start) ∧
      p.contentRange = "bytes " ++ toString p.start ++ "-" ++
        toString (p.stop - 1) ++ "/" ++ toString data.length) ∧
    (∀ p ∈ (chunkPuts data).dropLast,
      p.stop - p.start = UPLOAD_CHUNK_SIZE) ∧
    (∀ b, b < data.length → ∃ p ∈ chunkPuts data, p.start ≤ b ∧ b < p.stop) := by
  have hC := chunk_size_pos
  have h0 : 0 < data.length := by omega
  refine ⟨?_, ?_, ?_, ?_, ?_, ?_, ?_, ?_⟩
  · rw [chunkPuts, chunkPutsGo_of_lt data 0 h0]
    simp
  · rw [chunkPuts, chunkPutsGo_of_lt data 0 h0]
    rfl
  · exact getLast_chunkPutsGo data data.length 0 (by omega) h0
  · exact chain_chunkPutsGo data data.length 0 (by omega)
  · exact pairwise_chunkPutsGo data data.length 0 (by omega)
  · intro p hp
    obtain ⟨s, _, hs2, hs3⟩ :=
      mem_chunkPutsGo data data.length 0 p (by omega) hp
    subst hs3
    have hstart : (mkPut data s).start = s := rfl
    have hstop : (mkPut data s).stop = min (s + UPLOAD_CHUNK_SIZE) data.length :=
      rfl
    have hcl := mkPut_content_length data s hs2
    refine ⟨by omega, by omega, by omega, ?_, ?_, ?_, ?_⟩
    · rw [hstart, hstop]
      rfl
    · rw [hstart]
      exact hcl
    · show toString ((mkPut data s).content.length) = _
      rw [hcl, hstart]
    · rw [hstart, hstop]
      rfl
  · exact dropLast_chunkPutsGo data data.length 0 (by omega)
  · intro b hb
    exact cover_chunkPutsGo data data.length 0 b (by omega) (by omega) hb

/-- Witness for C2 at a concrete payload one byte larger than the chunk
size. -/
theorem chunked_upload_ranges_witness :
    UPLOAD_CHUNK_SIZE < (List.replicate (UPLOAD_CHUNK_SIZE + 1) 0).length ∧
    chunkPuts (List.replicate (UPLOAD_CHUNK_SIZE + 1) 0) ≠ [] :=
  ⟨by simp, (chunked_upload_ranges (List.replicate (UPLOAD_CHUNK_SIZE + 1) 0)
    (by simp)).1⟩

end MsGraph
